import Mathlib

/-!
Shallow embedding of the C# analyzer provider core
(src/provider/csharp.rs): the deduplicator, the evaluate pipeline,
and the init pipeline, together with proofs about the claims of the
specification.
-/

namespace CSharpAnalyzer

/-- Source position as constructed by the tests in csharp.rs
(c_sharp_graph/results.rs shape): a line and a character column. -/
structure Position where
  line : Nat
  character : Nat
deriving DecidableEq, Repr

/-- Code span with a start and an end position. -/
structure Location where
  start_position : Position
  end_position : Position
deriving DecidableEq, Repr

/-- One raw match record returned by the query engine.  The bindings
field embeds the source field named variables (a name Lean reserves),
a map of bindings that the deduplicator never inspects. -/
structure ResultNode where
  file_uri : String
  line_number : Nat
  bindings : List (String × String)
  code_location : Location
deriving DecidableEq, Repr

/-- Grouping key used by deduplicate_results: (file_uri, line_number). -/
def resultKey (r : ResultNode) : String × Nat :=
  (r.file_uri, r.line_number)

/-- Line span of a match: end line minus start line, as computed in
deduplicate_results.  The source subtracts usize values; spans coming
from the query engine satisfy end_line >= start_line, and natural
subtraction agrees with the source there. -/
def spanLength (r : ResultNode) : Nat :=
  r.code_location.end_position.line - r.code_location.start_position.line

/-- Comparison tuple used inside deduplicate_results:
(line_number, span, start character, end character). -/
def selTuple (r : ResultNode) : Nat × Nat × Nat × Nat :=
  (r.line_number, spanLength r,
   r.code_location.start_position.character,
   r.code_location.end_position.character)

/-- Lexicographic strict order on the comparison tuple, matching the Rust
tuple comparison (r_line, r_span, r_start, r_end) < (c_line, c_span, c_start, c_end). -/
def tupLt (a b : Nat × Nat × Nat × Nat) : Prop :=
  a.1 < b.1 ∨ (a.1 = b.1 ∧ (a.2.1 < b.2.1 ∨ (a.2.1 = b.2.1 ∧
    (a.2.2.1 < b.2.2.1 ∨ (a.2.2.1 = b.2.2.1 ∧ a.2.2.2 < b.2.2.2)))))

instance (a b : Nat × Nat × Nat × Nat) : Decidable (tupLt a b) := by
  unfold tupLt; infer_instance

theorem tupLt_irrefl (a : Nat × Nat × Nat × Nat) : ¬ tupLt a a := by
  unfold tupLt; omega

theorem tupLt_trans {a b c : Nat × Nat × Nat × Nat}
    (h1 : tupLt a b) (h2 : tupLt b c) : tupLt a c := by
  unfold tupLt at *; omega

theorem tupLt_total {a b : Nat × Nat × Nat × Nat}
    (h1 : ¬ tupLt a b) (h2 : ¬ tupLt b a) : a = b := by
  obtain ⟨a1, a2, a3, a4⟩ := a
  obtain ⟨b1, b2, b3, b4⟩ := b
  unfold tupLt at h1 h2
  dsimp only at h1 h2
  simp only [Prod.mk.injEq]
  omega

/-- Strict lexicographic order on character lists by code point,
embedding the byte-wise lexicographic Ord of Rust String values.  The
Lean built-in String order is extensionally the same on the strings
appearing here but does not reduce inside the kernel, so the order is
defined on the underlying character lists. -/
def charsLt : List Char → List Char → Prop
  | [], [] => False
  | [], _ :: _ => True
  | _ :: _, [] => False
  | a :: as, b :: bs => a.toNat < b.toNat ∨ (a.toNat = b.toNat ∧ charsLt as bs)

instance charsLtDec : (as bs : List Char) → Decidable (charsLt as bs)
  | [], [] => isFalse id
  | [], _ :: _ => isTrue trivial
  | _ :: _, [] => isFalse id
  | a :: as, b :: bs =>
    haveI : Decidable (charsLt as bs) := charsLtDec as bs
    inferInstanceAs (Decidable (a.toNat < b.toNat ∨ (a.toNat = b.toNat ∧ charsLt as bs)))

theorem charsLt_irrefl : ∀ as : List Char, ¬ charsLt as as
  | [] => id
  | a :: as => by
    rintro (h | ⟨-, h⟩)
    · exact lt_irrefl _ h
    · exact charsLt_irrefl as h

theorem charsLt_trans : ∀ {as bs cs : List Char},
    charsLt as bs → charsLt bs cs → charsLt as cs
  | [], [], _, h1, _ => (h1 : False).elim
  | _ :: _, [], _, h1, _ => (h1 : False).elim
  | _, _ :: _, [], _, h2 => (h2 : False).elim
  | [], _ :: _, _ :: _, _, _ => trivial
  | _ :: _, _ :: _, _ :: _, h1, h2 => by
    rcases h1 with h1 | ⟨e1, h1⟩ <;> rcases h2 with h2 | ⟨e2, h2⟩
    · exact Or.inl (lt_trans h1 h2)
    · exact Or.inl (e2 ▸ h1)
    · exact Or.inl (e1 ▸ h2)
    · exact Or.inr ⟨e1.trans e2, charsLt_trans h1 h2⟩

theorem charsLt_trichotomy : ∀ as bs : List Char,
    charsLt as bs ∨ as = bs ∨ charsLt bs as
  | [], [] => Or.inr (Or.inl rfl)
  | [], _ :: _ => Or.inl trivial
  | _ :: _, [] => Or.inr (Or.inr trivial)
  | a :: as, b :: bs => by
    rcases Nat.lt_trichotomy a.toNat b.toNat with h | h | h
    · exact Or.inl (Or.inl h)
    · have hab : a = b := Char.eq_of_val_eq (UInt32.ext h)
      rcases charsLt_trichotomy as bs with h2 | h2 | h2
      · exact Or.inl (Or.inr ⟨h, h2⟩)
      · exact Or.inr (Or.inl (by rw [hab, h2]))
      · exact Or.inr (Or.inr (Or.inr ⟨h.symm, h2⟩))
    · exact Or.inr (Or.inr (Or.inl h))

/-- Strict order on strings, by code points of the character list. -/
def strLt (a b : String) : Prop := charsLt a.data b.data

instance (a b : String) : Decidable (strLt a b) := by
  unfold strLt; infer_instance

theorem strLt_irrefl (a : String) : ¬ strLt a a := charsLt_irrefl a.data

theorem strLt_trans {a b c : String} (h1 : strLt a b) (h2 : strLt b c) :
    strLt a c := charsLt_trans h1 h2

theorem strLt_trichotomy (a b : String) : strLt a b ∨ a = b ∨ strLt b a := by
  rcases charsLt_trichotomy a.data b.data with h | h | h
  · exact Or.inl h
  · exact Or.inr (Or.inl (by cases a; cases b; exact congrArg String.mk h))
  · exact Or.inr (Or.inr h)

/-- Strict lexicographic order on the BTreeMap key (String, usize),
matching the Ord instance that the Rust BTreeMap uses. -/
def keyLt (a b : String × Nat) : Prop :=
  strLt a.1 b.1 ∨ (a.1 = b.1 ∧ a.2 < b.2)

instance (a b : String × Nat) : Decidable (keyLt a b) := by
  unfold keyLt; infer_instance

theorem keyLt_irrefl (a : String × Nat) : ¬ keyLt a a := by
  unfold keyLt
  rintro (h | ⟨-, h⟩)
  · exact strLt_irrefl _ h
  · exact lt_irrefl _ h

theorem keyLt_trans {a b c : String × Nat}
    (h1 : keyLt a b) (h2 : keyLt b c) : keyLt a c := by
  unfold keyLt at *
  rcases h1 with h1 | ⟨e1, h1⟩ <;> rcases h2 with h2 | ⟨e2, h2⟩
  · exact Or.inl (strLt_trans h1 h2)
  · exact Or.inl (e2 ▸ h1)
  · exact Or.inl (e1 ▸ h2)
  · exact Or.inr ⟨e1.trans e2, lt_trans h1 h2⟩

theorem keyLt_trichotomy (a b : String × Nat) :
    keyLt a b ∨ a = b ∨ keyLt b a := by
  obtain ⟨a1, a2⟩ := a
  obtain ⟨b1, b2⟩ := b
  unfold keyLt
  rcases strLt_trichotomy a1 b1 with h | h | h
  · exact Or.inl (Or.inl h)
  · rcases lt_trichotomy a2 b2 with h2 | h2 | h2
    · exact Or.inl (Or.inr ⟨h, h2⟩)
    · exact Or.inr (Or.inl (by simp [h, h2]))
    · exact Or.inr (Or.inr (Or.inr ⟨h.symm, h2⟩))
  · exact Or.inr (Or.inr (Or.inl h))

theorem keyLt_ne {a b : String × Nat} (h : keyLt a b) : a ≠ b := by
  rintro rfl; exact keyLt_irrefl a h

/-- Association list standing for the BTreeMap of deduplicate_results,
kept sorted in strictly ascending key order. -/
abbrev DedupMap := List ((String × Nat) × ResultNode)

/-- The record kept when a second record with the same key arrives:
entry(key).and_modify replaces the current record exactly when the new
tuple is strictly smaller. -/
def pickBetter (c r : ResultNode) : ResultNode :=
  if tupLt (selTuple r) (selTuple c) then r else c

/-- Sorted-map insertion realizing
best_by_location.entry(key).and_modify(..).or_insert(r). -/
def mapInsert (k : String × Nat) (r : ResultNode) : DedupMap → DedupMap
  | [] => [(k, r)]
  | (k2, v) :: rest =>
    if k = k2 then (k2, pickBetter v r) :: rest
    else if keyLt k k2 then (k, r) :: (k2, v) :: rest
    else (k2, v) :: mapInsert k r rest

/-- The loop of deduplicate_results over the input records. -/
def dedupFold (m : DedupMap) (results : List ResultNode) : DedupMap :=
  results.foldl (fun acc r => mapInsert (resultKey r) r acc) m

/-- Embedding of deduplicate_results: fold all records into the map,
then return the values in ascending key order (BTreeMap values()). -/
def deduplicate_results (results : List ResultNode) : List ResultNode :=
  (dedupFold [] results).map Prod.snd

/-- Lookup in the association-list map. -/
def findEntry (k : String × Nat) : DedupMap → Option ResultNode
  | [] => none
  | (k2, v) :: rest => if k = k2 then some v else findEntry k rest

/-- All records of the input sharing a given key, in input order. -/
def groupOf (k : String × Nat) (l : List ResultNode) : List ResultNode :=
  l.filter (fun r => decide (resultKey r = k))

/-- Folding the selection over one group, starting from the current map
entry when it exists. -/
def groupWinner : Option ResultNode → List ResultNode → Option ResultNode
  | o, [] => o
  | none, r :: rest => groupWinner (some r) rest
  | some c, r :: rest => groupWinner (some (pickBetter c r)) rest

/-- Keys strictly ascend along the map. -/
def mapSorted (m : DedupMap) : Prop :=
  m.Pairwise (fun e1 e2 => keyLt e1.1 e2.1)

/-- Every stored record carries the key it is stored under. -/
def entryKeyed (m : DedupMap) : Prop :=
  ∀ e ∈ m, resultKey e.2 = e.1

theorem mem_mapInsert {k : String × Nat} {r : ResultNode} :
    ∀ {m : DedupMap} {e}, e ∈ mapInsert k r m → e.1 = k ∨ e ∈ m := by
  intro m
  induction m with
  | nil =>
    intro e he
    simp only [mapInsert, List.mem_singleton] at he
    exact Or.inl (by rw [he])
  | cons hd tl ih =>
    obtain ⟨k2, v⟩ := hd
    intro e he
    simp only [mapInsert] at he
    by_cases hk : k = k2
    · rw [if_pos hk] at he
      rcases List.mem_cons.mp he with rfl | h
      · exact Or.inl hk.symm
      · exact Or.inr (List.mem_cons_of_mem _ h)
    · rw [if_neg hk] at he
      by_cases hlt : keyLt k k2
      · rw [if_pos hlt] at he
        rcases List.mem_cons.mp he with rfl | h
        · exact Or.inl rfl
        · exact Or.inr h
      · rw [if_neg hlt] at he
        rcases List.mem_cons.mp he with rfl | h
        · exact Or.inr (List.mem_cons_self _ _)
        · rcases ih h with h1 | h1
          · exact Or.inl h1
          · exact Or.inr (List.mem_cons_of_mem _ h1)

theorem mapSorted_mapInsert {k : String × Nat} {r : ResultNode} :
    ∀ {m : DedupMap}, mapSorted m → mapSorted (mapInsert k r m) := by
  intro m
  induction m with
  | nil =>
    intro _
    simp [mapInsert, mapSorted]
  | cons hd tl ih =>
    obtain ⟨k2, v⟩ := hd
    intro hs
    rw [mapSorted, List.pairwise_cons] at hs
    obtain ⟨hhead, htl⟩ := hs
    simp only [mapInsert]
    by_cases hk : k = k2
    · rw [if_pos hk]
      rw [mapSorted, List.pairwise_cons]
      exact ⟨hhead, htl⟩
    · rw [if_neg hk]
      by_cases hlt : keyLt k k2
      · rw [if_pos hlt]
        rw [mapSorted, List.pairwise_cons]
        constructor
        · intro e he
          rcases List.mem_cons.mp he with rfl | h
          · exact hlt
          · exact keyLt_trans hlt (hhead e h)
        · rw [mapSorted, List.pairwise_cons] at *
          exact ⟨hhead, htl⟩
      · rw [if_neg hlt]
        have hgt : keyLt k2 k := by
          rcases keyLt_trichotomy k k2 with h | h | h
          · exact absurd h hlt
          · exact absurd h hk
          · exact h
        rw [mapSorted, List.pairwise_cons]
        constructor
        · intro e he
          rcases mem_mapInsert he with h1 | h1
          · rw [h1]; exact hgt
          · exact hhead e h1
        · exact ih htl

theorem entryKeyed_mapInsert {k : String × Nat} {r : ResultNode}
    (hr : resultKey r = k) :
    ∀ {m : DedupMap}, entryKeyed m → entryKeyed (mapInsert k r m) := by
  intro m
  induction m with
  | nil =>
    intro _ e he
    simp only [mapInsert, List.mem_singleton] at he
    rw [he]; exact hr
  | cons hd tl ih =>
    obtain ⟨k2, v⟩ := hd
    intro hm e he
    simp only [mapInsert] at he
    by_cases hk : k = k2
    · rw [if_pos hk] at he
      rcases List.mem_cons.mp he with rfl | h
      · simp only
        unfold pickBetter
        split
        · rw [hr, hk]
        · exact hm (k2, v) (List.mem_cons_self _ _)
      · exact hm e (List.mem_cons_of_mem _ h)
    · rw [if_neg hk] at he
      by_cases hlt : keyLt k k2
      · rw [if_pos hlt] at he
        rcases List.mem_cons.mp he with rfl | h
        · exact hr
        · exact hm e h
      · rw [if_neg hlt] at he
        rcases List.mem_cons.mp he with rfl | h
        · exact hm (k2, v) (List.mem_cons_self _ _)
        · exact ih (fun e2 he2 => hm e2 (List.mem_cons_of_mem _ he2)) e h

theorem findEntry_eq_none {k : String × Nat} :
    ∀ {m : DedupMap}, (∀ e ∈ m, keyLt k e.1) → findEntry k m = none := by
  intro m
  induction m with
  | nil => intro _; rfl
  | cons hd tl ih =>
    obtain ⟨k2, v⟩ := hd
    intro h
    have hne : k ≠ k2 := keyLt_ne (h (k2, v) (List.mem_cons_self _ _))
    simp only [findEntry, if_neg hne]
    exact ih (fun e he => h e (List.mem_cons_of_mem _ he))

theorem findEntry_mapInsert {k k2 : String × Nat} {r : ResultNode} :
    ∀ {m : DedupMap}, mapSorted m →
    findEntry k2 (mapInsert k r m) =
      if k2 = k then
        some (match findEntry k m with
              | none => r
              | some c => pickBetter c r)
      else findEntry k2 m := by
  intro m
  induction m with
  | nil =>
    intro _
    simp [mapInsert, findEntry]
  | cons hd tl ih =>
    obtain ⟨kh, v⟩ := hd
    intro hs
    rw [mapSorted, List.pairwise_cons] at hs
    obtain ⟨hhead, htl⟩ := hs
    simp only [mapInsert]
    by_cases hk : k = kh
    · rw [if_pos hk]
      subst hk
      by_cases hk2 : k2 = k
      · simp [findEntry, if_pos hk2, hk2]
      · simp [findEntry, if_neg hk2, hk2]
    · rw [if_neg hk]
      by_cases hlt : keyLt k kh
      · rw [if_pos hlt]
        have hnone : findEntry k ((kh, v) :: tl) = none := by
          apply findEntry_eq_none
          intro e he
          rcases List.mem_cons.mp he with rfl | h
          · exact hlt
          · exact keyLt_trans hlt (hhead e h)
        by_cases hk2 : k2 = k
        · subst hk2
          rw [hnone]
          simp [findEntry]
        · simp only [findEntry, if_neg hk2]
      · rw [if_neg hlt]
        by_cases hk2 : k2 = kh
        · subst hk2
          have hne : ¬ (k2 = k) := fun h => hk (h.symm ▸ rfl)
          simp [findEntry, if_neg hne, hne]
        · simp only [findEntry, if_neg hk2, if_neg hk]
          rw [ih htl]

theorem findEntry_mem {k : String × Nat} {v : ResultNode} :
    ∀ {m : DedupMap}, findEntry k m = some v → (k, v) ∈ m := by
  intro m
  induction m with
  | nil => intro h; exact absurd h (by simp [findEntry])
  | cons hd tl ih =>
    obtain ⟨k2, v2⟩ := hd
    intro h
    simp only [findEntry] at h
    by_cases hk : k = k2
    · rw [if_pos hk] at h
      subst hk
      rw [Option.some_inj] at h
      subst h
      exact List.mem_cons_self _ _
    · rw [if_neg hk] at h
      exact List.mem_cons_of_mem _ (ih h)

theorem mem_findEntry :
    ∀ {m : DedupMap}, mapSorted m → ∀ {e}, e ∈ m → findEntry e.1 m = some e.2 := by
  intro m
  induction m with
  | nil => intro _ e he; exact absurd he (List.not_mem_nil e)
  | cons hd tl ih =>
    obtain ⟨k2, v2⟩ := hd
    intro hs e he
    rw [mapSorted, List.pairwise_cons] at hs
    obtain ⟨hhead, htl⟩ := hs
    rcases List.mem_cons.mp he with rfl | h
    · simp [findEntry]
    · have hne : e.1 ≠ k2 := by
        intro hcontra
        exact keyLt_irrefl _ (hcontra ▸ hhead e h)
      simp only [findEntry, if_neg hne]
      exact ih htl h

theorem tupLt_trichotomy (a b : Nat × Nat × Nat × Nat) :
    tupLt a b ∨ a = b ∨ tupLt b a := by
  obtain ⟨a1, a2, a3, a4⟩ := a
  obtain ⟨b1, b2, b3, b4⟩ := b
  unfold tupLt
  dsimp only
  simp only [Prod.mk.injEq]
  omega

theorem dedupFold_cons (m : DedupMap) (r : ResultNode) (l : List ResultNode) :
    dedupFold m (r :: l) = dedupFold (mapInsert (resultKey r) r m) l := rfl

theorem groupWinner_nil (o : Option ResultNode) : groupWinner o [] = o := by
  cases o <;> rfl

theorem mapSorted_dedupFold :
    ∀ {l : List ResultNode} {m : DedupMap}, mapSorted m → mapSorted (dedupFold m l) := by
  intro l
  induction l with
  | nil => intro m hs; exact hs
  | cons r l ih =>
    intro m hs
    rw [dedupFold_cons]
    exact ih (mapSorted_mapInsert hs)

theorem entryKeyed_dedupFold :
    ∀ {l : List ResultNode} {m : DedupMap}, entryKeyed m → entryKeyed (dedupFold m l) := by
  intro l
  induction l with
  | nil => intro m hk; exact hk
  | cons r l ih =>
    intro m hk
    rw [dedupFold_cons]
    exact ih (entryKeyed_mapInsert rfl hk)

theorem groupOf_cons (k : String × Nat) (r : ResultNode) (l : List ResultNode) :
    groupOf k (r :: l) =
      if resultKey r = k then r :: groupOf k l else groupOf k l := by
  simp only [groupOf, List.filter_cons]
  by_cases h : resultKey r = k
  · simp [h]
  · simp [h]

theorem findEntry_dedupFold :
    ∀ {l : List ResultNode} {m : DedupMap}, mapSorted m → ∀ k,
      findEntry k (dedupFold m l) = groupWinner (findEntry k m) (groupOf k l) := by
  intro l
  induction l with
  | nil =>
    intro m _ k
    rw [show groupOf k [] = [] from rfl, groupWinner_nil]
    rfl
  | cons r l ih =>
    intro m hs k
    rw [dedupFold_cons, ih (mapSorted_mapInsert hs) k,
      findEntry_mapInsert hs, groupOf_cons]
    by_cases hk : resultKey r = k
    · rw [if_pos hk, if_pos hk.symm]
      subst hk
      cases hfe : findEntry (resultKey r) m with
      | none => simp [groupWinner]
      | some c => simp [groupWinner]
    · rw [if_neg hk, if_neg (fun h => hk h.symm)]

theorem groupWinner_isSome :
    ∀ (g : List ResultNode) (c : ResultNode), ∃ w, groupWinner (some c) g = some w
  | [], c => ⟨c, rfl⟩
  | r :: g, c => groupWinner_isSome g (pickBetter c r)

theorem groupWinner_spec :
    ∀ (g : List ResultNode) (o : Option ResultNode) (w : ResultNode),
      groupWinner o g = some w →
      (w ∈ g ∨ o = some w) ∧
      (∀ r ∈ g, ¬ tupLt (selTuple r) (selTuple w)) ∧
      (∀ c, o = some c → ¬ tupLt (selTuple c) (selTuple w)) := by
  intro g
  induction g with
  | nil =>
    intro o w h
    rw [groupWinner_nil] at h
    refine ⟨Or.inr h, ?_, ?_⟩
    · intro r hr; exact absurd hr (List.not_mem_nil r)
    · intro c hc
      rw [h] at hc
      cases hc
      exact tupLt_irrefl _
  | cons r g ih =>
    intro o w h
    cases o with
    | none =>
      obtain ⟨hmem, hming, hmino⟩ := ih (some r) w h
      refine ⟨?_, ?_, ?_⟩
      · rcases hmem with hm | hm
        · exact Or.inl (List.mem_cons_of_mem _ hm)
        · rw [Option.some_inj] at hm
          exact Or.inl (hm ▸ List.mem_cons_self _ _)
      · intro x hx
        rcases List.mem_cons.mp hx with rfl | hx
        · exact hmino x rfl
        · exact hming x hx
      · intro c hc; cases hc
    | some c =>
      obtain ⟨hmem, hming, hmino⟩ := ih (some (pickBetter c r)) w h
      have hpb : ¬ tupLt (selTuple (pickBetter c r)) (selTuple w) := hmino _ rfl
      have hc_not : ¬ tupLt (selTuple c) (selTuple w) := by
        unfold pickBetter at hpb
        split at hpb
        · rename_i hrc
          intro hcw
          exact hpb (tupLt_trans hrc hcw)
        · exact hpb
      have hr_not : ¬ tupLt (selTuple r) (selTuple w) := by
        unfold pickBetter at hpb
        split at hpb
        · exact hpb
        · rename_i hrc
          intro hrw
          rcases tupLt_trichotomy (selTuple c) (selTuple r) with h3 | h3 | h3
          · exact hc_not (tupLt_trans h3 hrw)
          · exact hc_not (h3 ▸ hrw)
          · exact hrc h3
      refine ⟨?_, ?_, ?_⟩
      · rcases hmem with hm | hm
        · exact Or.inl (List.mem_cons_of_mem _ hm)
        · rw [Option.some_inj] at hm
          unfold pickBetter at hm
          split at hm
          · exact Or.inl (hm ▸ List.mem_cons_self _ _)
          · exact Or.inr (by rw [hm])
      · intro x hx
        rcases List.mem_cons.mp hx with rfl | hx
        · exact hr_not
        · exact hming x hx
      · intro c0 hc0
        rw [Option.some_inj] at hc0
        exact hc0 ▸ hc_not

theorem findEntry_ne_none_iff {k : String × Nat} :
    ∀ {m : DedupMap}, (findEntry k m ≠ none ↔ k ∈ m.map Prod.fst) := by
  intro m
  induction m with
  | nil => simp [findEntry]
  | cons hd tl ih =>
    obtain ⟨k2, v2⟩ := hd
    by_cases hk : k = k2
    · subst hk
      simp [findEntry]
    · simp only [findEntry, if_neg hk, List.map_cons, List.mem_cons]
      rw [ih]
      constructor
      · intro h; exact Or.inr h
      · rintro (h | h)
        · exact absurd h hk
        · exact h

theorem mapSorted_nil : mapSorted [] := List.Pairwise.nil

theorem findEntry_deduplicate (l : List ResultNode) (k : String × Nat) :
    findEntry k (dedupFold [] l) = groupWinner none (groupOf k l) :=
  findEntry_dedupFold mapSorted_nil k

theorem mem_groupOf {k : String × Nat} {l : List ResultNode} {r : ResultNode} :
    r ∈ groupOf k l ↔ r ∈ l ∧ resultKey r = k := by
  simp [groupOf]

theorem mem_deduplicate_iff {l : List ResultNode} {s : ResultNode} :
    s ∈ deduplicate_results l ↔ ∃ k, findEntry k (dedupFold [] l) = some s := by
  unfold deduplicate_results
  constructor
  · intro hs
    rcases List.mem_map.mp hs with ⟨e, he, rfl⟩
    exact ⟨e.1, mem_findEntry (mapSorted_dedupFold mapSorted_nil) he⟩
  · rintro ⟨k, hk⟩
    exact List.mem_map.mpr ⟨(k, s), findEntry_mem hk, rfl⟩

theorem deduplicate_mem_input {l : List ResultNode} {s : ResultNode}
    (hs : s ∈ deduplicate_results l) : s ∈ l := by
  rcases mem_deduplicate_iff.mp hs with ⟨k, hk⟩
  rw [findEntry_deduplicate] at hk
  obtain ⟨hmem, -, -⟩ := groupWinner_spec _ _ _ hk
  rcases hmem with hm | hm
  · exact (mem_groupOf.mp hm).1
  · cases hm

theorem deduplicate_min {l : List ResultNode} {s r : ResultNode}
    (hs : s ∈ deduplicate_results l) (hr : r ∈ l)
    (hkey : resultKey r = resultKey s) :
    ¬ tupLt (selTuple r) (selTuple s) := by
  rcases mem_deduplicate_iff.mp hs with ⟨k, hk⟩
  rw [findEntry_deduplicate] at hk
  obtain ⟨hmem, hmin, -⟩ := groupWinner_spec _ _ _ hk
  rcases hmem with hm | hm
  · have hks : resultKey s = k := (mem_groupOf.mp hm).2
    exact hmin r (mem_groupOf.mpr ⟨hr, hkey.trans hks⟩)
  · cases hm

theorem groupWinner_none_iff {g : List ResultNode} :
    groupWinner none g = none ↔ g = [] := by
  cases g with
  | nil => simp [groupWinner_nil]
  | cons r g =>
    obtain ⟨w, hw⟩ := groupWinner_isSome g r
    constructor
    · intro h
      rw [show groupWinner none (r :: g) = groupWinner (some r) g from rfl, hw] at h
      cases h
    · intro h; cases h

theorem deduplicate_key_surj {l : List ResultNode} {k : String × Nat}
    (h : ∃ r ∈ l, resultKey r = k) :
    ∃ s ∈ deduplicate_results l, resultKey s = k := by
  obtain ⟨r, hr, hkey⟩ := h
  have hne : groupOf k l ≠ [] := by
    intro hnil
    have : r ∈ groupOf k l := mem_groupOf.mpr ⟨hr, hkey⟩
    rw [hnil] at this
    exact List.not_mem_nil r this
  cases hw : groupWinner none (groupOf k l) with
  | none => exact absurd (groupWinner_none_iff.mp hw) hne
  | some w =>
    have hfe : findEntry k (dedupFold [] l) = some w :=
      (findEntry_deduplicate l k).trans hw
    obtain ⟨hmem, -, -⟩ := groupWinner_spec _ _ _ hw
    rcases hmem with hm | hm
    · exact ⟨w, mem_deduplicate_iff.mpr ⟨k, hfe⟩, (mem_groupOf.mp hm).2⟩
    · cases hm

theorem deduplicate_pairwise_keys (l : List ResultNode) :
    (deduplicate_results l).Pairwise (fun a b => resultKey a ≠ resultKey b) := by
  unfold deduplicate_results
  rw [List.pairwise_map]
  have hs : mapSorted (dedupFold [] l) := mapSorted_dedupFold mapSorted_nil
  have hk : entryKeyed (dedupFold [] l) :=
    entryKeyed_dedupFold (fun e he => absurd he (List.not_mem_nil e))
  rw [mapSorted] at hs
  refine hs.imp_of_mem ?_
  intro e1 e2 h1 h2 hlt
  rw [hk e1 h1, hk e2 h2]
  exact keyLt_ne hlt

theorem groupOf_singleton :
    ∀ {l : List ResultNode},
      l.Pairwise (fun a b => resultKey a ≠ resultKey b) →
      ∀ a ∈ l, groupOf (resultKey a) l = [a] := by
  intro l
  induction l with
  | nil => intro _ a ha; exact absurd ha (List.not_mem_nil a)
  | cons x l ih =>
    intro hp a ha
    rw [List.pairwise_cons] at hp
    obtain ⟨hx, hl⟩ := hp
    rcases List.mem_cons.mp ha with rfl | ha
    · rw [groupOf_cons, if_pos rfl]
      have : groupOf (resultKey a) l = [] := by
        apply List.filter_eq_nil_iff.mpr
        intro b hb
        simp only [decide_eq_true_eq]
        exact fun hcontra => hx b hb (hcontra ▸ rfl)
      rw [this]
    · rw [groupOf_cons, if_neg (hx a ha), ih hl a ha]

/-- C6: on an input whose records already have pairwise distinct
(file_uri, line_number) keys, deduplicate_results returns exactly the
input records, as a multiset permutation (one record per key, none
dropped, altered or added; the output order is the ascending key order
produced by the BTreeMap). -/
theorem claim_C6_dedup_idempotent (l : List ResultNode)
    (h : l.Pairwise (fun a b => resultKey a ≠ resultKey b)) :
    (deduplicate_results l).Perm l := by
  have hln : l.Nodup := h.imp (by
    intro a b hab he
    exact hab (by rw [he]))
  have hon : (deduplicate_results l).Nodup := (deduplicate_pairwise_keys l).imp (by
    intro a b hab he
    exact hab (by rw [he]))
  apply (List.perm_ext_iff_of_nodup hon hln).mpr
  intro a
  constructor
  · exact fun ha => deduplicate_mem_input ha
  · intro ha
    have hg : groupOf (resultKey a) l = [a] := groupOf_singleton h a ha
    have hfe : findEntry (resultKey a) (dedupFold [] l) = some a := by
      rw [findEntry_deduplicate, hg]
      rfl
    exact mem_deduplicate_iff.mpr ⟨_, hfe⟩

/-- Witness for C6 at a concrete already-deduplicated input. -/
theorem claim_C6_dedup_idempotent_witness :
    (deduplicate_results
      [⟨"b.cs", 7, [], ⟨⟨7, 1⟩, ⟨7, 4⟩⟩⟩,
       ⟨"a.cs", 3, [], ⟨⟨3, 0⟩, ⟨3, 9⟩⟩⟩]).Perm
      [⟨"b.cs", 7, [], ⟨⟨7, 1⟩, ⟨7, 4⟩⟩⟩,
       ⟨"a.cs", 3, [], ⟨⟨3, 0⟩, ⟨3, 9⟩⟩⟩] :=
  claim_C6_dedup_idempotent _ (by decide)

/-- C5: deduplicate_results keeps exactly one record per distinct
(file_uri, line_number) key of the input, every output record is an
input record, records with different keys are never merged, and the
concrete three-line scenario (lines 179, 180, 181 of one file) yields
three records. -/
theorem claim_C5_one_record_per_key :
    (∀ (l : List ResultNode),
      (∀ s ∈ deduplicate_results l, s ∈ l) ∧
      (deduplicate_results l).Pairwise (fun a b => resultKey a ≠ resultKey b) ∧
      (∀ k, (∃ r ∈ l, resultKey r = k) ↔
        (∃ s ∈ deduplicate_results l, resultKey s = k))) ∧
    deduplicate_results
      [⟨"file.cs", 179, [], ⟨⟨179, 0⟩, ⟨179, 10⟩⟩⟩,
       ⟨"file.cs", 180, [], ⟨⟨180, 0⟩, ⟨180, 10⟩⟩⟩,
       ⟨"file.cs", 181, [], ⟨⟨181, 0⟩, ⟨181, 10⟩⟩⟩] =
      [⟨"file.cs", 179, [], ⟨⟨179, 0⟩, ⟨179, 10⟩⟩⟩,
       ⟨"file.cs", 180, [], ⟨⟨180, 0⟩, ⟨180, 10⟩⟩⟩,
       ⟨"file.cs", 181, [], ⟨⟨181, 0⟩, ⟨181, 10⟩⟩⟩] := by
  constructor
  · intro l
    refine ⟨fun s hs => deduplicate_mem_input hs, deduplicate_pairwise_keys l, ?_⟩
    intro k
    constructor
    · exact deduplicate_key_surj
    · rintro ⟨s, hs, hk⟩
      exact ⟨s, deduplicate_mem_input hs, hk⟩
  · decide

/-- Witness for C5 at a concrete input with a duplicated key. -/
theorem claim_C5_one_record_per_key_witness :
    ∃ s ∈ deduplicate_results
      [⟨"f.cs", 4, [], ⟨⟨4, 0⟩, ⟨4, 2⟩⟩⟩,
       ⟨"f.cs", 4, [], ⟨⟨4, 3⟩, ⟨4, 5⟩⟩⟩],
      resultKey s = ("f.cs", 4) :=
  ((claim_C5_one_record_per_key.1 _).2.2 ("f.cs", 4)).mp
    ⟨⟨"f.cs", 4, [], ⟨⟨4, 0⟩, ⟨4, 2⟩⟩⟩, by decide, rfl⟩

/-- C4: every record selected by deduplicate_results minimizes the
tuple (line_number, span, start character, end character) over its key
group, with span measured in lines, and the concrete three-span
scenario selects the record with span [10,5]-[12,0]. -/
theorem claim_C4_min_tuple_selection :
    (∀ (l : List ResultNode) (s r : ResultNode),
      s ∈ deduplicate_results l → r ∈ l → resultKey r = resultKey s →
      s ∈ l ∧ ¬ tupLt (selTuple r) (selTuple s)) ∧
    deduplicate_results
      [⟨"f", 10, [], ⟨⟨10, 0⟩, ⟨15, 0⟩⟩⟩,
       ⟨"f", 10, [], ⟨⟨10, 5⟩, ⟨12, 0⟩⟩⟩,
       ⟨"f", 10, [], ⟨⟨10, 0⟩, ⟨20, 0⟩⟩⟩] =
      [⟨"f", 10, [], ⟨⟨10, 5⟩, ⟨12, 0⟩⟩⟩] := by
  constructor
  · intro l s r hs hr hkey
    exact ⟨deduplicate_mem_input hs, deduplicate_min hs hr hkey⟩
  · decide

/-- Witness for C4 at a concrete two-record group. -/
theorem claim_C4_min_tuple_selection_witness :
    ⟨"g.cs", 2, [], ⟨⟨2, 1⟩, ⟨2, 6⟩⟩⟩ ∈
      ([⟨"g.cs", 2, [], ⟨⟨2, 1⟩, ⟨2, 6⟩⟩⟩,
        ⟨"g.cs", 2, [], ⟨⟨2, 1⟩, ⟨3, 0⟩⟩⟩] : List ResultNode) ∧
    ¬ tupLt (selTuple ⟨"g.cs", 2, [], ⟨⟨2, 1⟩, ⟨3, 0⟩⟩⟩)
      (selTuple ⟨"g.cs", 2, [], ⟨⟨2, 1⟩, ⟨2, 6⟩⟩⟩) :=
  claim_C4_min_tuple_selection.1
    [⟨"g.cs", 2, [], ⟨⟨2, 1⟩, ⟨2, 6⟩⟩⟩,
     ⟨"g.cs", 2, [], ⟨⟨2, 1⟩, ⟨3, 0⟩⟩⟩]
    ⟨"g.cs", 2, [], ⟨⟨2, 1⟩, ⟨2, 6⟩⟩⟩
    ⟨"g.cs", 2, [], ⟨⟨2, 1⟩, ⟨3, 0⟩⟩⟩
    (by decide) (by decide) (by decide)

theorem groupOf_perm {l1 l2 : List ResultNode} (h : l1.Perm l2)
    (k : String × Nat) : (groupOf k l1).Perm (groupOf k l2) :=
  h.filter _

theorem winner_tuple_eq {g1 g2 : List ResultNode} {w1 w2 : ResultNode}
    (hp : g1.Perm g2)
    (h1 : groupWinner none g1 = some w1)
    (h2 : groupWinner none g2 = some w2) :
    selTuple w1 = selTuple w2 := by
  obtain ⟨m1, min1, -⟩ := groupWinner_spec _ _ _ h1
  obtain ⟨m2, min2, -⟩ := groupWinner_spec _ _ _ h2
  replace m1 : w1 ∈ g1 := by rcases m1 with h | h; exact h; cases h
  replace m2 : w2 ∈ g2 := by rcases m2 with h | h; exact h; cases h
  have hb : ¬ tupLt (selTuple w1) (selTuple w2) := min2 w1 (hp.mem_iff.mp m1)
  have ha : ¬ tupLt (selTuple w2) (selTuple w1) := min1 w2 (hp.mem_iff.mpr m2)
  exact tupLt_total hb ha

theorem dedup_keys_nodup (l : List ResultNode) :
    ((dedupFold [] l).map Prod.fst).Nodup := by
  have hs : mapSorted (dedupFold [] l) := mapSorted_dedupFold mapSorted_nil
  rw [mapSorted] at hs
  rw [List.Nodup, List.pairwise_map]
  exact hs.imp keyLt_ne

theorem dedup_key_mem_iff (l : List ResultNode) (k : String × Nat) :
    k ∈ (dedupFold [] l).map Prod.fst ↔ ∃ r ∈ l, resultKey r = k := by
  rw [← findEntry_ne_none_iff, findEntry_deduplicate]
  constructor
  · intro h
    have hg : groupOf k l ≠ [] := fun hnil => h (by rw [hnil]; rfl)
    cases hge : groupOf k l with
    | nil => exact absurd hge hg
    | cons r g =>
      have hr : r ∈ groupOf k l := by rw [hge]; exact List.mem_cons_self _ _
      obtain ⟨hrl, hrk⟩ := mem_groupOf.mp hr
      exact ⟨r, hrl, hrk⟩
  · rintro ⟨r, hr, hrk⟩ hnone
    have : r ∈ groupOf k l := mem_groupOf.mpr ⟨hr, hrk⟩
    rw [groupWinner_none_iff.mp hnone] at this
    exact List.not_mem_nil r this

theorem dedup_length_eq_of_perm {l1 l2 : List ResultNode} (h : l1.Perm l2) :
    (deduplicate_results l1).length = (deduplicate_results l2).length := by
  unfold deduplicate_results
  rw [List.length_map, List.length_map]
  have hK : ((dedupFold [] l1).map Prod.fst).Perm ((dedupFold [] l2).map Prod.fst) := by
    apply (List.perm_ext_iff_of_nodup (dedup_keys_nodup l1) (dedup_keys_nodup l2)).mpr
    intro k
    rw [dedup_key_mem_iff, dedup_key_mem_iff]
    constructor
    · rintro ⟨r, hr, hrk⟩; exact ⟨r, h.mem_iff.mp hr, hrk⟩
    · rintro ⟨r, hr, hrk⟩; exact ⟨r, h.mem_iff.mpr hr, hrk⟩
  have := hK.length_eq
  rwa [List.length_map, List.length_map] at this

/-- C3 counterexample: the two orderings of one two-record multiset.
Both records share the key (f, 10) and tie on the selection tuple
(line 10, span 2, start 5, end 0) while being different records, so the
first-encountered record wins and the selected record set differs
between the two permutations. -/
theorem claim_C3_counterexample :
    ([(⟨"f", 10, [], ⟨⟨10, 5⟩, ⟨12, 0⟩⟩⟩ : ResultNode),
      ⟨"f", 10, [], ⟨⟨11, 5⟩, ⟨13, 0⟩⟩⟩].Perm
     [⟨"f", 10, [], ⟨⟨11, 5⟩, ⟨13, 0⟩⟩⟩,
      ⟨"f", 10, [], ⟨⟨10, 5⟩, ⟨12, 0⟩⟩⟩]) ∧
    deduplicate_results
      [⟨"f", 10, [], ⟨⟨10, 5⟩, ⟨12, 0⟩⟩⟩,
       ⟨"f", 10, [], ⟨⟨11, 5⟩, ⟨13, 0⟩⟩⟩] =
      [⟨"f", 10, [], ⟨⟨10, 5⟩, ⟨12, 0⟩⟩⟩] ∧
    deduplicate_results
      [⟨"f", 10, [], ⟨⟨11, 5⟩, ⟨13, 0⟩⟩⟩,
       ⟨"f", 10, [], ⟨⟨10, 5⟩, ⟨12, 0⟩⟩⟩] =
      [⟨"f", 10, [], ⟨⟨11, 5⟩, ⟨13, 0⟩⟩⟩] ∧
    (⟨"f", 10, [], ⟨⟨10, 5⟩, ⟨12, 0⟩⟩⟩ : ResultNode) ≠
      ⟨"f", 10, [], ⟨⟨11, 5⟩, ⟨13, 0⟩⟩⟩ := by
  refine ⟨?_, by decide, by decide, by decide⟩
  exact List.Perm.swap _ _ _

/-- C3 amended: permutation invariance holds for the observable
projection: any two permutations of a RawMatch multiset produce
deduplicated outputs of the same length in which every selected record
of one output is matched in the other by a selected record with the
same (file_uri, line_number) key and the same selection tuple
(line_number, span, start character, end character).  The selected
record itself may differ between orders when two records of a group tie
on that tuple, first encountered winning. -/
theorem claim_C3_permutation_invariance {l1 l2 : List ResultNode}
    (h : l1.Perm l2) :
    (deduplicate_results l1).length = (deduplicate_results l2).length ∧
    ∀ s1 ∈ deduplicate_results l1, ∃ s2 ∈ deduplicate_results l2,
      resultKey s2 = resultKey s1 ∧ selTuple s2 = selTuple s1 := by
  refine ⟨dedup_length_eq_of_perm h, ?_⟩
  intro s1 hs1
  rcases mem_deduplicate_iff.mp hs1 with ⟨k, hf1⟩
  rw [findEntry_deduplicate] at hf1
  obtain ⟨hm1, -, -⟩ := groupWinner_spec _ _ _ hf1
  replace hm1 : s1 ∈ groupOf k l1 := by rcases hm1 with hm | hm; exact hm; cases hm
  have hk1 : resultKey s1 = k := (mem_groupOf.mp hm1).2
  have hmem2 : s1 ∈ groupOf k l2 := (groupOf_perm h k).mem_iff.mp hm1
  cases hw2 : groupWinner none (groupOf k l2) with
  | none =>
    rw [groupWinner_none_iff.mp hw2] at hmem2
    exact absurd hmem2 (List.not_mem_nil s1)
  | some w2 =>
    obtain ⟨hm2, -, -⟩ := groupWinner_spec _ _ _ hw2
    replace hm2 : w2 ∈ groupOf k l2 := by rcases hm2 with hm | hm; exact hm; cases hm
    refine ⟨w2, ?_, ?_, ?_⟩
    · exact mem_deduplicate_iff.mpr ⟨k, (findEntry_deduplicate l2 k).trans hw2⟩
    · rw [(mem_groupOf.mp hm2).2, hk1]
    · exact winner_tuple_eq (groupOf_perm h.symm k) hw2 hf1

/-- Witness for the amended C3 at a concrete two-element swap. -/
theorem claim_C3_permutation_invariance_witness :
    (deduplicate_results
      [⟨"w.cs", 2, [], ⟨⟨2, 0⟩, ⟨2, 3⟩⟩⟩,
       ⟨"w.cs", 1, [], ⟨⟨1, 0⟩, ⟨1, 3⟩⟩⟩]).length =
    (deduplicate_results
      [⟨"w.cs", 1, [], ⟨⟨1, 0⟩, ⟨1, 3⟩⟩⟩,
       ⟨"w.cs", 2, [], ⟨⟨2, 0⟩, ⟨2, 3⟩⟩⟩]).length :=
  (claim_C3_permutation_invariance (List.Perm.swap _ _ _)).1

/-- Incident record as seen by the final sort in evaluate: the
generated protobuf IncidentContext carries the file uri and an optional
line number (the other fields play no part in the sort). -/
structure IncidentContext where
  file_uri : String
  line_number : Option Nat
deriving DecidableEq, Repr

/-- Accessor standing for the generated line_number() method, which
returns the stored value or the protobuf default 0. -/
def IncidentContext.lineNumberGet (i : IncidentContext) : Nat :=
  i.line_number.getD 0

/-- Modelled from the spec: the CanonicalMatch-to-incident conversion
(Into for ResultNode, in c_sharp_graph/results.rs, not under src/)
carries over the source location and the line number of the match. -/
def toIncident (r : ResultNode) : IncidentContext :=
  { file_uri := r.file_uri, line_number := some r.line_number }

/-- Sort key of the final sort in evaluate: the formatted string
"{file_uri}-{line_number}", exactly as sort_by_key builds it. -/
def incidentSortKey (i : IncidentContext) : String :=
  i.file_uri ++ "-" ++ toString i.lineNumberGet

/-- Comparison used by the final sort: lexicographic on the formatted
string key. -/
def incidentLe (a b : IncidentContext) : Prop :=
  ¬ strLt (incidentSortKey b) (incidentSortKey a)

instance : DecidableRel incidentLe := fun a b => by
  unfold incidentLe; infer_instance

instance : IsTotal IncidentContext incidentLe := by
  constructor
  intro a b
  rcases strLt_trichotomy (incidentSortKey a) (incidentSortKey b) with h | h | h
  · exact Or.inl (fun hc => strLt_irrefl _ (strLt_trans h hc))
  · exact Or.inl (fun hc => strLt_irrefl _ (h ▸ hc))
  · exact Or.inr (fun hc => strLt_irrefl _ (strLt_trans h hc))

instance : IsTrans IncidentContext incidentLe := by
  constructor
  intro a b c hab hbc hca
  rcases strLt_trichotomy (incidentSortKey a) (incidentSortKey b) with h | h | h
  · exact hbc (strLt_trans hca h)
  · exact hbc (h ▸ hca)
  · exact hab h

/-- Stable ascending sort by the string key, modelling the stable
sort_by_key of the incident vector. -/
def sortIncidents (l : List IncidentContext) : List IncidentContext :=
  List.insertionSort incidentLe l

/-- Post-processing of a successful query in evaluate: deduplicate,
convert to incidents, sort by the formatted string key. -/
def processResults (results : List ResultNode) : List IncidentContext :=
  sortIncidents ((deduplicate_results results).map toIncident)

/-- C1 counterexample: two incidents in the same file on lines 9 and
10.  The final sort key is the string "{file_uri}-{line_number}", and
"f-10" sorts lexicographically before "f-9", so the returned order is
line 10 before line 9, while the claim demands numeric ascending order
(line 9 first) for equal source locations. -/
theorem claim_C1_counterexample :
    processResults
      [⟨"f", 9, [], ⟨⟨9, 0⟩, ⟨9, 5⟩⟩⟩,
       ⟨"f", 10, [], ⟨⟨10, 0⟩, ⟨10, 5⟩⟩⟩] =
      [⟨"f", some 10⟩, ⟨"f", some 9⟩] ∧
    processResults
      [⟨"f", 9, [], ⟨⟨9, 0⟩, ⟨9, 5⟩⟩⟩,
       ⟨"f", 10, [], ⟨⟨10, 0⟩, ⟨10, 5⟩⟩⟩] ≠
      [⟨"f", some 9⟩, ⟨"f", some 10⟩] := by
  constructor
  · decide
  · decide

/-- Location filter of the reference condition. -/
inductive Locations
  | All
  | Method
  | Field
  | Class
deriving DecidableEq, Repr

/-- The referenced condition payload: a pattern, a location filter
defaulting to All, and optional file paths (unused). -/
structure ReferenceCondition where
  pattern : String
  location : Locations
  file_paths : Option (List String)
deriving DecidableEq, Repr

/-- The deserialized condition shape. -/
structure CSharpCondition where
  referenced : ReferenceCondition
deriving DecidableEq, Repr

/-- Opaque code graph token (external type, consumed by the core). -/
structure Graph where
  id : Nat
deriving DecidableEq, Repr

/-- Opaque source type token (external type, consumed by the core). -/
structure SourceType where
  id : Nat
deriving DecidableEq, Repr

/-- The shared graph slot: a mutex holding an optional graph together
with its poison flag.  Clearing the poison and taking the inner value
yields the same contents as a clean acquisition. -/
structure SharedGraph where
  poisoned : Bool
  contents : Option Graph
deriving DecidableEq, Repr

/-- Tool configuration resolved from provider specific config. -/
structure Tools where
  dotnet_install_cmd : Option String
deriving DecidableEq, Repr

/-- The provider project.  Identity fields come from the init call;
target_framework, the graph contents and the source type are populated
by the init pipeline.  Modelled from the spec: the Project internals
(provider/mod.rs) are not under src/; per the data model the graph is
created empty and populated by the init pipeline, and the source type
is cached by graph construction and read during evaluate. -/
structure Project where
  location : String
  db_path : String
  analysis_mode : String
  tools : Tools
  target_framework : Option String
  graph : SharedGraph
  source_type : Option SourceType
deriving DecidableEq, Repr

/-- Query dispatch value built from the location filter. -/
inductive QueryType
  | All (graph : Graph) (source_type : SourceType)
  | Method (graph : Graph) (source_type : SourceType)
  | Field (graph : Graph) (source_type : SourceType)
  | Class (graph : Graph) (source_type : SourceType)
deriving DecidableEq, Repr

/-- Outcome of query.query(pattern): a result list, the distinguished
NotFoundError, or any other error with its text. -/
inductive QueryOutcome
  | ok (results : List ResultNode)
  | notFound
  | otherError (msg : String)
deriving DecidableEq, Repr

/-- Payload of the evaluate response. -/
structure ProviderEvaluateResponse where
  matched : Bool
  incident_contexts : List IncidentContext
deriving DecidableEq, Repr

/-- The evaluate response returned inside Ok. -/
structure EvaluateResponse where
  error : String
  successful : Bool
  response : Option ProviderEvaluateResponse
deriving DecidableEq, Repr

/-- Result of one evaluate call: a returned response, a transport
level Status error, or a panic (the unwrap on a missing graph). -/
inductive EvalResult
  | ok (resp : EvaluateResponse)
  | statusErr (msg : String)
  | panicked
deriving DecidableEq, Repr

/-- The location filter match building the QueryType. -/
def selectQuery (loc : Locations) (graph : Graph) (source_type : SourceType) :
    QueryType :=
  match loc with
  | .All => .All graph source_type
  | .Method => .Method graph source_type
  | .Field => .Field graph source_type
  | .Class => .Class graph source_type

/-- Acquisition of the graph mutex: on a clean lock the guard exposes
the contents; on a poisoned lock the poison is cleared and into_inner
exposes the same contents. -/
def lockGraph (sg : SharedGraph) : Option Graph :=
  match sg.poisoned with
  | false => sg.contents
  | true => sg.contents

theorem lockGraph_eq (sg : SharedGraph) : lockGraph sg = sg.contents := by
  unfold lockGraph
  cases sg.poisoned <;> rfl

/-- Embedding of evaluate.  The capability string and the already
deserialized condition (none for a malformed payload) are inputs; the
query engine is an oracle mapping a QueryType and a pattern to an
outcome.  The body follows the source control flow: capability check,
condition deserialization, project presence, source type presence,
graph lock acquisition with poison clearing, unwrap of the graph
option, query dispatch, result mapping with deduplication and sort. -/
def evaluate (cap : String) (parsedCondition : Option CSharpCondition)
    (project : Option Project)
    (engine : QueryType → String → QueryOutcome) : EvalResult :=
  if cap ≠ "referenced" then
    .ok { error := "unable to find referenced capability",
          successful := false, response := none }
  else
    match parsedCondition with
    | none => .statusErr "failed"
    | some condition =>
      match project with
      | none =>
        .ok { error := "project may not be initialized",
              successful := false, response := none }
      | some project =>
        match project.source_type with
        | none =>
          .ok { error := "project may not be initialized",
                successful := false, response := none }
        | some source_type =>
          let graph_option := lockGraph project.graph
          match graph_option with
          | none => .panicked
          | some graph =>
            let query := selectQuery condition.referenced.location graph source_type
            match engine query condition.referenced.pattern with
            | .notFound =>
              .ok { error := "", successful := true,
                    response := some { matched := false, incident_contexts := [] } }
            | .otherError msg =>
              .ok { error := msg, successful := false, response := none }
            | .ok res =>
              let i := processResults res
              .ok { error := "", successful := true,
                    response := some { matched := !i.isEmpty, incident_contexts := i } }

/-- C7: when the call reaches the query engine, the distinguished
NotFoundError outcome maps to a returned response with successful set,
no match and no incidents, and any other engine failure maps to a
returned response with successful cleared, the engine error text and no
payload. -/
theorem claim_C7_query_outcome_mapping
    (cond : CSharpCondition) (p : Project) (st : SourceType) (g : Graph)
    (engine : QueryType → String → QueryOutcome)
    (hst : p.source_type = some st)
    (hg : p.graph.contents = some g) :
    (engine (selectQuery cond.referenced.location g st) cond.referenced.pattern =
        .notFound →
      evaluate "referenced" (some cond) (some p) engine =
        .ok { error := "", successful := true,
              response := some { matched := false, incident_contexts := [] } }) ∧
    (∀ msg,
      engine (selectQuery cond.referenced.location g st) cond.referenced.pattern =
          .otherError msg →
      evaluate "referenced" (some cond) (some p) engine =
        .ok { error := msg, successful := false, response := none }) := by
  constructor
  · intro hq
    simp [evaluate, hst, lockGraph_eq, hg, hq]
  · intro msg hq
    simp [evaluate, hst, lockGraph_eq, hg, hq]

/-- Witness for C7 with a concrete project and constant engines. -/
theorem claim_C7_query_outcome_mapping_witness :
    evaluate "referenced"
      (some { referenced := { pattern := "System.Web", location := .All,
                              file_paths := none } })
      (some { location := "loc", db_path := "db", analysis_mode := "full",
              tools := { dotnet_install_cmd := none },
              target_framework := none,
              graph := { poisoned := false, contents := some { id := 0 } },
              source_type := some { id := 0 } })
      (fun _ _ => .notFound) =
      .ok { error := "", successful := true,
            response := some { matched := false, incident_contexts := [] } } :=
  (claim_C7_query_outcome_mapping _ _ _ _ _ rfl rfl).1 rfl

/-- C8: a capability other than referenced returns a non-faulting
response with successful cleared and no incidents, and a call with the
supported capability and a well-formed condition made while no project
is installed returns a non-faulting response with the not-initialized
message, no incidents and no match. -/
theorem claim_C8_expected_preconditions :
    (∀ (cap : String) (parsed : Option CSharpCondition)
        (project : Option Project)
        (engine : QueryType → String → QueryOutcome),
      cap ≠ "referenced" →
      evaluate cap parsed project engine =
        .ok { error := "unable to find referenced capability",
              successful := false, response := none }) ∧
    (∀ (cond : CSharpCondition) (engine : QueryType → String → QueryOutcome),
      evaluate "referenced" (some cond) none engine =
        .ok { error := "project may not be initialized",
              successful := false, response := none }) := by
  constructor
  · intro cap parsed project engine hcap
    unfold evaluate
    rw [if_pos hcap]
  · intro cond engine
    rfl

/-- Witness for C8 with a concrete unsupported capability and a
concrete uninitialized call. -/
theorem claim_C8_expected_preconditions_witness :
    evaluate "dependency" none none (fun _ _ => .notFound) =
      .ok { error := "unable to find referenced capability",
            successful := false, response := none } ∧
    evaluate "referenced"
      (some { referenced := { pattern := "p", location := .Method,
                              file_paths := none } })
      none (fun _ _ => .notFound) =
      .ok { error := "project may not be initialized",
            successful := false, response := none } :=
  ⟨claim_C8_expected_preconditions.1 "dependency" none none _ (by decide),
   claim_C8_expected_preconditions.2 _ _⟩

/-- C1 amended: the incident list returned on success is sorted
ascending by the formatted string key "{file_uri}-{line_number}"
(lexicographic on the whole string), and is a permutation of the
deduplicated incidents; every response payload an evaluate call
returns carries a list sorted that way.  For equal source locations
this equals numeric order only when the decimal representations
compare alike, so line 10 sorts before line 9. -/
theorem claim_C1_sorted_by_string_key :
    (∀ results : List ResultNode,
      (processResults results).Sorted incidentLe ∧
      (processResults results).Perm
        ((deduplicate_results results).map toIncident)) ∧
    (∀ (cap : String) (parsed : Option CSharpCondition)
        (project : Option Project)
        (engine : QueryType → String → QueryOutcome)
        (resp : EvaluateResponse) (pr : ProviderEvaluateResponse),
      evaluate cap parsed project engine = .ok resp →
      resp.response = some pr →
      pr.incident_contexts.Sorted incidentLe) := by
  constructor
  · intro results
    exact ⟨List.sorted_insertionSort incidentLe _,
      List.perm_insertionSort incidentLe _⟩
  · intro cap parsed project engine resp pr h hpr
    unfold evaluate at h
    split at h
    · simp only [EvalResult.ok.injEq] at h
      subst h
      cases hpr
    · split at h
      · cases h
      · split at h
        · simp only [EvalResult.ok.injEq] at h
          subst h
          cases hpr
        · split at h
          · simp only [EvalResult.ok.injEq] at h
            subst h
            cases hpr
          · dsimp only at h
            split at h
            · cases h
            · split at h
              · simp only [EvalResult.ok.injEq] at h
                subst h
                simp only [Option.some_inj] at hpr
                subst hpr
                exact List.sorted_nil
              · simp only [EvalResult.ok.injEq] at h
                subst h
                cases hpr
              · simp only [EvalResult.ok.injEq] at h
                subst h
                simp only [Option.some_inj] at hpr
                subst hpr
                exact List.sorted_insertionSort incidentLe _

/-- Witness for the amended C1: a call whose engine returns records on
lines 9 and 10 of one file yields the payload ordered line 10 first,
and that order is sorted under the string key comparison. -/
theorem claim_C1_sorted_by_string_key_witness :
    List.Sorted incidentLe [⟨"f", some 10⟩, ⟨"f", some 9⟩] :=
  claim_C1_sorted_by_string_key.2 "referenced"
    (some { referenced := { pattern := "p", location := .All,
                            file_paths := none } })
    (some { location := "loc", db_path := "db", analysis_mode := "full",
            tools := { dotnet_install_cmd := none },
            target_framework := none,
            graph := { poisoned := false, contents := some { id := 0 } },
            source_type := some { id := 0 } })
    (fun _ _ => .ok
      [⟨"f", 9, [], ⟨⟨9, 0⟩, ⟨9, 5⟩⟩⟩,
       ⟨"f", 10, [], ⟨⟨10, 0⟩, ⟨10, 5⟩⟩⟩])
    { error := "", successful := true,
      response := some { matched := true,
                         incident_contexts := [⟨"f", some 10⟩, ⟨"f", some 9⟩] } }
    { matched := true,
      incident_contexts := [⟨"f", some 10⟩, ⟨"f", some 9⟩] }
    (by decide) rfl

/-- Prefix test on strings, embedding str::starts_with on the
character list (the Lean built-in startsWith does not reduce inside
the kernel). -/
def strStartsWith (s p : String) : Bool :=
  p.data.isPrefixOf s.data

/-- The modern dotnet classification of init: netcoreapp or netstandard
prefixes, or a net prefix that is not one of the legacy net1 to net4
generations.  Conjunction binds tighter than disjunction, exactly as
in the source expression. -/
def isModernDotnet (tfm : String) : Bool :=
  strStartsWith tfm "netcoreapp" || strStartsWith tfm "netstandard" ||
    (strStartsWith tfm "net" && !(strStartsWith tfm "net4") &&
      !(strStartsWith tfm "net3") && !(strStartsWith tfm "net2") &&
      !(strStartsWith tfm "net1"))

/-- Config payload of an init call (the fields the core reads). -/
structure Config where
  location : String
  analysis_mode : String
deriving DecidableEq, Repr

/-- The provider shared state: the config slot and the project slot,
each behind its own lock. -/
structure InitState where
  config : Option Config
  project : Option Project
deriving DecidableEq, Repr

/-- The init response returned inside Ok. -/
structure InitResponse where
  error : String
  successful : Bool
  id : Nat
deriving DecidableEq, Repr

/-- Joined outcome of the background SDK task: the task completed with
a loaded file count, the task completed with an install or enumeration
or loading error, or the task crashed and the join reports the panic. -/
inductive SdkTaskResult
  | loaded (count : Nat)
  | failed (msg : String)
  | crashed (msg : String)
deriving DecidableEq, Repr

/-- Ordered events of one init call, for stating sequencing facts. -/
inductive InitEvent
  | spawnSdkTask
  | validateLanguageConfiguration
  | buildGraph
  | resolveDependencies
  | joinSdkTask
  | loadToDatabase
deriving DecidableEq, Repr

/-- A project as Project::new builds it: identity fields from the call,
no target framework, an empty unpoisoned graph, no source type. -/
def freshProject (cfg : Config) (dbPath : String) (tools : Tools) : Project :=
  { location := cfg.location, db_path := dbPath,
    analysis_mode := cfg.analysis_mode, tools := tools,
    target_framework := none,
    graph := { poisoned := false, contents := none },
    source_type := none }

/-- The fallible tail of init after the project has been installed in
the shared slot: language-configuration validation, graph build (which
populates the graph contents and caches the source type), dependency
resolution, join of the SDK task when one was spawned, database
persistence (result only logged), success response.  The SDK task
outcome never changes the result: all three join outcomes continue. -/
def initPipeline (s1 : InitState) (project : Project) (sdkSpawned : Bool)
    (sdkTask : SdkTaskResult)
    (validateRes : Except String Unit)
    (graphRes : Except String (Graph × SourceType))
    (depsRes : Except String Unit)
    (persistRes : Except String Unit) :
    Except String InitResponse × InitState × List InitEvent :=
  let events0 : List InitEvent := if sdkSpawned then [.spawnSdkTask] else []
  let s2 : InitState := { s1 with project := some project }
  match validateRes with
  | .error _ =>
    (.error "unable to create language configuration for project", s2,
      events0 ++ [.validateLanguageConfiguration])
  | .ok _ =>
    match graphRes with
    | .error _ =>
      (.error "failed", s2,
        events0 ++ [.validateLanguageConfiguration, .buildGraph])
    | .ok gs =>
      let project2 : Project :=
        { project with
          graph := { project.graph with contents := some gs.1 },
          source_type := some gs.2 }
      let s3 : InitState := { s1 with project := some project2 }
      match depsRes with
      | .error _ =>
        (.error "unable to resolve dependencies", s3,
          events0 ++ [.validateLanguageConfiguration, .buildGraph,
            .resolveDependencies])
      | .ok _ =>
        match sdkTask, persistRes with
        | _, _ =>
          (.ok { error := "", successful := true, id := 4 }, s3,
            events0 ++ [.validateLanguageConfiguration, .buildGraph,
              .resolveDependencies] ++
              (if sdkSpawned then [.joinSdkTask] else []) ++
              [.loadToDatabase])

/-- Embedding of init.  External collaborators appear as oracle
arguments: tool resolution, target framework detection, the joined SDK
task outcome, language-configuration validation, graph build,
dependency resolution (its join), database persistence.  The config is
stored first; tool-resolution failure returns before a project is
built; otherwise the new project is installed in the shared slot and
the pipeline runs.  On detection success the target framework is stored
on the installed project and SDK-task eligibility is the modern-dotnet
test together with a configured install script. -/
def init (s : InitState) (cfg : Config) (dbPath : String)
    (toolsRes : Except String Tools)
    (detectRes : Except String String)
    (sdkTask : SdkTaskResult)
    (validateRes : Except String Unit)
    (graphRes : Except String (Graph × SourceType))
    (depsRes : Except String Unit)
    (persistRes : Except String Unit) :
    Except String InitResponse × InitState × List InitEvent :=
  let s1 : InitState := { s with config := some cfg }
  match toolsRes with
  | .error e => (.error ("unalble to find tools: " ++ e), s1, [])
  | .ok tools =>
    match detectRes with
    | .ok tfm =>
      initPipeline s1
        { freshProject cfg dbPath tools with target_framework := some tfm }
        (isModernDotnet tfm && tools.dotnet_install_cmd.isSome)
        sdkTask validateRes graphRes depsRes persistRes
    | .error _ =>
      initPipeline s1 (freshProject cfg dbPath tools) false
        sdkTask validateRes graphRes depsRes persistRes

/-- C2 counterexample: starting from the empty state, an init call
that passes tool resolution but fails language-configuration
validation returns a failure while leaving the project slot holding
the project built by that failed call, so the slot is Some although no
init call has completed successfully. -/
theorem claim_C2_counterexample :
    (init { config := none, project := none }
      { location := "proj", analysis_mode := "full" } "db"
      (.ok { dotnet_install_cmd := none }) (.error "no csproj")
      (.failed "not started") (.error "boom")
      (.ok ({ id := 1 }, { id := 1 })) (.ok ()) (.ok ())).1 =
      .error "unable to create language configuration for project" ∧
    (init { config := none, project := none }
      { location := "proj", analysis_mode := "full" } "db"
      (.ok { dotnet_install_cmd := none }) (.error "no csproj")
      (.failed "not started") (.error "boom")
      (.ok ({ id := 1 }, { id := 1 })) (.ok ()) (.ok ())).2.1.project ≠
      none := by
  constructor
  · rfl
  · decide

theorem initPipeline_project_slot (s1 : InitState) (project : Project)
    (sdkSpawned : Bool) (sdkTask : SdkTaskResult)
    (validateRes : Except String Unit)
    (graphRes : Except String (Graph × SourceType))
    (depsRes : Except String Unit) (persistRes : Except String Unit) :
    ∃ p, (initPipeline s1 project sdkSpawned sdkTask validateRes graphRes
        depsRes persistRes).2.1.project = some p ∧
      p.location = project.location ∧ p.db_path = project.db_path ∧
      p.tools = project.tools := by
  unfold initPipeline
  rcases validateRes with e | u
  · exact ⟨project, rfl, rfl, rfl, rfl⟩
  · rcases graphRes with e | gs
    · exact ⟨project, rfl, rfl, rfl, rfl⟩
    · rcases depsRes with e | u2
      · exact ⟨_, rfl, rfl, rfl, rfl⟩
      · exact ⟨_, rfl, rfl, rfl, rfl⟩

/-- C2 amended: init is all-or-nothing only at the tool-resolution
step.  A tool-resolution failure returns before any project is built
and leaves the project slot exactly as it was; once tool resolution
passes, the new project built from this call is installed in the slot
before the fallible pipeline runs, so every later failure
(language-configuration validation, graph build, dependency
resolution) leaves the slot holding the project of the failed call.
Hence the slot is Some exactly when some init call has passed tool
resolution, not when one has completed successfully. -/
theorem claim_C2_project_slot :
    (∀ (s : InitState) (cfg : Config) (dbPath e : String)
        (detectRes : Except String String) (sdkTask : SdkTaskResult)
        (validateRes : Except String Unit)
        (graphRes : Except String (Graph × SourceType))
        (depsRes : Except String Unit) (persistRes : Except String Unit),
      init s cfg dbPath (.error e) detectRes sdkTask validateRes graphRes
          depsRes persistRes =
        (.error ("unalble to find tools: " ++ e),
         { s with config := some cfg }, [])) ∧
    (∀ (s : InitState) (cfg : Config) (dbPath : String) (tools : Tools)
        (detectRes : Except String String) (sdkTask : SdkTaskResult)
        (validateRes : Except String Unit)
        (graphRes : Except String (Graph × SourceType))
        (depsRes : Except String Unit) (persistRes : Except String Unit),
      ∃ p, (init s cfg dbPath (.ok tools) detectRes sdkTask validateRes
          graphRes depsRes persistRes).2.1.project = some p ∧
        p.location = cfg.location ∧ p.db_path = dbPath ∧
        p.tools = tools) := by
  constructor
  · intro s cfg dbPath e detectRes sdkTask validateRes graphRes depsRes persistRes
    rfl
  · intro s cfg dbPath tools detectRes sdkTask validateRes graphRes depsRes persistRes
    unfold init
    rcases detectRes with e | tfm
    · exact initPipeline_project_slot _ _ _ _ _ _ _ _
    · exact initPipeline_project_slot _ _ _ _ _ _ _ _

/-- C9: once framework detection, validation, graph build, dependency
resolution succeed, init returns the success response whatever the SDK
task outcome, including a crash and including the task never being
spawned; when the task was spawned its join event precedes the
database persistence event in the init trace. -/
theorem claim_C9_sdk_nonfatal (s : InitState) (cfg : Config)
    (dbPath : String) (tools : Tools) (tfm : String)
    (sdkTask : SdkTaskResult) (g : Graph) (st : SourceType)
    (persistRes : Except String Unit) :
    (init s cfg dbPath (.ok tools) (.ok tfm) sdkTask (.ok ())
        (.ok (g, st)) (.ok ()) persistRes).1 =
      .ok { error := "", successful := true, id := 4 } ∧
    ((isModernDotnet tfm && tools.dotnet_install_cmd.isSome) = true →
      (init s cfg dbPath (.ok tools) (.ok tfm) sdkTask (.ok ())
          (.ok (g, st)) (.ok ()) persistRes).2.2 =
        [.spawnSdkTask, .validateLanguageConfiguration, .buildGraph,
         .resolveDependencies, .joinSdkTask, .loadToDatabase]) := by
  constructor
  · rfl
  · intro h
    simp [init, initPipeline, h]

/-- Witness for C9: a crashed SDK task on a modern framework with a
configured install script still yields a successful init, with the
join traced before persistence. -/
theorem claim_C9_sdk_nonfatal_witness :
    (init { config := none, project := none }
      { location := "proj", analysis_mode := "full" } "db"
      (.ok { dotnet_install_cmd := some "./dotnet-install.sh" })
      (.ok "net8.0") (.crashed "task panic") (.ok ())
      (.ok ({ id := 1 }, { id := 1 })) (.ok ()) (.ok ())).1 =
      .ok { error := "", successful := true, id := 4 } ∧
    (init { config := none, project := none }
      { location := "proj", analysis_mode := "full" } "db"
      (.ok { dotnet_install_cmd := some "./dotnet-install.sh" })
      (.ok "net8.0") (.crashed "task panic") (.ok ())
      (.ok ({ id := 1 }, { id := 1 })) (.ok ()) (.ok ())).2.2 =
      [.spawnSdkTask, .validateLanguageConfiguration, .buildGraph,
       .resolveDependencies, .joinSdkTask, .loadToDatabase] :=
  ⟨(claim_C9_sdk_nonfatal _ _ _ _ _ _ _ _ _).1,
   (claim_C9_sdk_nonfatal _ _ _ _ _ _ _ _ _).2 (by decide)⟩

/-- Project with the detected target framework stored. -/
def withFramework (p : Project) (tfm : String) : Project :=
  { p with target_framework := some tfm }

/-- Project after the graph build: graph contents present and source
type cached. -/
def withGraph (p : Project) (g : Graph) (st : SourceType) : Project :=
  { p with graph := { p.graph with contents := some g },
           source_type := some st }

/-- Project with the graph lock poison flag set or cleared. -/
def withPoison (p : Project) (b : Bool) : Project :=
  { p with graph := { p.graph with poisoned := b } }

/-- Modelled from the spec: observable transitions of the provider
shared state.  Beyond whole init calls, the intermediate states that a
concurrent reader can observe while an init call runs are steps of
their own: installing a fresh project (graph created empty, no source
type), storing the detected target framework, the graph build
populating the graph contents and caching the source type together,
and a fault of a graph-lock holder poisoning or clearing the lock. -/
inductive ProviderStep : InitState → InitState → Prop
  | initCall (s : InitState) (cfg : Config) (dbPath : String)
      (toolsRes : Except String Tools) (detectRes : Except String String)
      (sdkTask : SdkTaskResult) (validateRes : Except String Unit)
      (graphRes : Except String (Graph × SourceType))
      (depsRes : Except String Unit) (persistRes : Except String Unit) :
      ProviderStep s (init s cfg dbPath toolsRes detectRes sdkTask
        validateRes graphRes depsRes persistRes).2.1
  | installFresh (s : InitState) (cfg : Config) (dbPath : String)
      (tools : Tools) :
      ProviderStep s
        { config := some cfg, project := some (freshProject cfg dbPath tools) }
  | setFramework (s : InitState) (p : Project) (tfm : String)
      (h : s.project = some p) :
      ProviderStep s { s with project := some (withFramework p tfm) }
  | populateGraph (s : InitState) (p : Project) (g : Graph)
      (st : SourceType) (h : s.project = some p) :
      ProviderStep s { s with project := some (withGraph p g st) }
  | poisonGraph (s : InitState) (p : Project) (b : Bool)
      (h : s.project = some p) :
      ProviderStep s { s with project := some (withPoison p b) }

/-- States reachable from the initial provider state (no config, no
project). -/
def Reachable (s : InitState) : Prop :=
  Relation.ReflTransGen ProviderStep { config := none, project := none } s

/-- The invariant behind the unwrap in evaluate: whenever the stored
project has a cached source type, its graph slot holds a graph. -/
def projectConsistent (s : InitState) : Prop :=
  ∀ p, s.project = some p → p.source_type.isSome → p.graph.contents.isSome

theorem initPipeline_consistent (s1 : InitState) (project : Project)
    (sdkSpawned : Bool) (sdkTask : SdkTaskResult)
    (validateRes : Except String Unit)
    (graphRes : Except String (Graph × SourceType))
    (depsRes : Except String Unit) (persistRes : Except String Unit)
    (hsrc : project.source_type = none) :
    projectConsistent (initPipeline s1 project sdkSpawned sdkTask
      validateRes graphRes depsRes persistRes).2.1 := by
  unfold initPipeline
  rcases validateRes with e | u
  · intro p hp hsome
    rw [Option.some_inj] at hp
    rw [← hp, hsrc] at hsome
    cases hsome
  · rcases graphRes with e | gs
    · intro p hp hsome
      rw [Option.some_inj] at hp
      rw [← hp, hsrc] at hsome
      cases hsome
    · rcases depsRes with e | u2
      · intro p hp _
        rw [Option.some_inj] at hp
        rw [← hp]
        rfl
      · intro p hp _
        rw [Option.some_inj] at hp
        rw [← hp]
        rfl

theorem init_consistent (s : InitState) (hc : projectConsistent s)
    (cfg : Config) (dbPath : String) (toolsRes : Except String Tools)
    (detectRes : Except String String) (sdkTask : SdkTaskResult)
    (validateRes : Except String Unit)
    (graphRes : Except String (Graph × SourceType))
    (depsRes : Except String Unit) (persistRes : Except String Unit) :
    projectConsistent (init s cfg dbPath toolsRes detectRes sdkTask
      validateRes graphRes depsRes persistRes).2.1 := by
  unfold init
  rcases toolsRes with e | tools
  · exact fun p hp => hc p hp
  · rcases detectRes with e | tfm
    · exact initPipeline_consistent _ _ _ _ _ _ _ _ rfl
    · exact initPipeline_consistent _ _ _ _ _ _ _ _ rfl

theorem reachable_consistent : ∀ {s : InitState}, Reachable s →
    projectConsistent s := by
  intro s h
  induction h with
  | refl =>
    intro p hp
    cases hp
  | tail hsteps hstep ih =>
    cases hstep with
    | initCall cfg dbPath toolsRes detectRes sdkTask validateRes graphRes depsRes persistRes =>
      exact init_consistent _ ih cfg dbPath toolsRes detectRes sdkTask
        validateRes graphRes depsRes persistRes
    | installFresh cfg dbPath tools =>
      intro p hp hsome
      simp only [Option.some_inj] at hp
      rw [← hp] at hsome
      cases hsome
    | setFramework p0 tfm hpr =>
      intro p hp hsome
      simp only [Option.some_inj] at hp
      rw [← hp] at hsome
      rw [← hp]
      exact ih p0 hpr hsome
    | populateGraph p0 g st hpr =>
      intro p hp _
      simp only [Option.some_inj] at hp
      rw [← hp]
      rfl
    | poisonGraph p0 b hpr =>
      intro p hp hsome
      simp only [Option.some_inj] at hp
      rw [← hp] at hsome
      rw [← hp]
      exact ih p0 hpr hsome

/-- C10: in every reachable provider state, an evaluate call that
passes the capability check, condition deserialization, the project
presence check and the source-type presence check finds a present
graph under the graph lock, so the unwrap cannot panic and the call
returns a response, poisoned lock included (the poison flag never
changes the contents the cleared lock exposes). -/
theorem claim_C10_no_panic (s : InitState) (hr : Reachable s)
    (p : Project) (hp : s.project = some p) (st : SourceType)
    (hst : p.source_type = some st) (cond : CSharpCondition)
    (engine : QueryType → String → QueryOutcome) :
    ∃ resp, evaluate "referenced" (some cond) s.project engine =
      .ok resp := by
  have hcontents : p.graph.contents.isSome :=
    reachable_consistent hr p hp (by rw [hst]; rfl)
  obtain ⟨g, hg⟩ := Option.isSome_iff_exists.mp hcontents
  rw [hp]
  cases hq : engine (selectQuery cond.referenced.location g st)
      cond.referenced.pattern with
  | ok res =>
    exact ⟨{ error := "", successful := true,
             response := some { matched := !((processResults res).isEmpty),
                                incident_contexts := processResults res } },
      by simp [evaluate, hst, lockGraph_eq, hg, hq]⟩
  | notFound =>
    exact ⟨{ error := "", successful := true,
             response := some { matched := false, incident_contexts := [] } },
      by simp [evaluate, hst, lockGraph_eq, hg, hq]⟩
  | otherError msg =>
    exact ⟨{ error := msg, successful := false, response := none },
      by simp [evaluate, hst, lockGraph_eq, hg, hq]⟩

/-- Witness for C10 on a concrete reachable state: fresh project
installed, then graph populated with its source type. -/
theorem claim_C10_no_panic_witness :
    ∃ resp,
      evaluate "referenced"
        (some { referenced := { pattern := "p", location := .All,
                                file_paths := none } })
        (some { location := "proj", db_path := "db",
                analysis_mode := "full",
                tools := { dotnet_install_cmd := none },
                target_framework := none,
                graph := { poisoned := false, contents := some { id := 1 } },
                source_type := some { id := 2 } })
        (fun _ _ => .notFound) = .ok resp := by
  have h1 : ProviderStep { config := none, project := none }
      { config := some { location := "proj", analysis_mode := "full" },
        project := some (freshProject
          { location := "proj", analysis_mode := "full" } "db"
          { dotnet_install_cmd := none }) } :=
    ProviderStep.installFresh _ _ _ _
  have h2 := ProviderStep.populateGraph
    { config := some { location := "proj", analysis_mode := "full" },
      project := some (freshProject
        { location := "proj", analysis_mode := "full" } "db"
        { dotnet_install_cmd := none }) }
    (freshProject { location := "proj", analysis_mode := "full" } "db"
      { dotnet_install_cmd := none })
    { id := 1 } { id := 2 } rfl
  exact claim_C10_no_panic _
    (Relation.ReflTransGen.tail (Relation.ReflTransGen.tail
      Relation.ReflTransGen.refl h1) h2) _ rfl _ rfl _ _

end CSharpAnalyzer
